import Mathlib

/-!
Verification of the storage pipeline of `mmk/data/factory.py` (the layout-index
abstraction and the parallel build-and-aggregate pipeline).

Conventions of the embedding:
* Python strings are embedded as `List Char`; `str.split(sep)` for a one-character
  separator is `splitOnCh`, `sep.join(parts)` is `joinCh` (both match CPython
  semantics, e.g. `"".split(".") == [""]`).
* The h5/pandas store is the external collaborator of the spec and is modelled as a
  capability: a per-source store file is a `DB` value (named datasets, named tables,
  an optional info record), the file system is an association list from paths to
  `DB`s plus the single aggregate target file.
* The worker pool of `make_db_for_each_file` is modelled by an explicit completion
  schedule `sched : List Nat`: tasks are executed in schedule order and each task
  deposits its result at its own input position, which is exactly the semantics of
  `multiprocessing.Pool.starmap`.
* The class `Metadata` (`mmk/data/metadata.py`) and the class `Database`
  (`mmk/data/api.py`) are not part of the source tree; the operations of theirs that
  `factory.py` uses are modelled from the spec and marked as such.
-/

namespace Mimikit

/-! ## Python string splitting and joining on a single character -/

/-- Embeds Python `s.split(sep)` for a one-character separator `sep`:
`splitOnCh sep s` returns the groups of characters of `s` between occurrences of
`sep`, with `splitOnCh sep [] = [[]]` just as `"".split(".") == [""]`. -/
def splitOnCh (sep : Char) : List Char → List (List Char)
  | [] => [[]]
  | c :: rest =>
    let r := splitOnCh sep rest
    if c = sep then [] :: r else (c :: r.headD []) :: r.tail

/-- Embeds Python `sep.join(groups)` for a one-character separator. -/
def joinCh (sep : Char) : List (List Char) → List Char
  | [] => []
  | g :: gs => g ++ gs.flatMap (fun h => sep :: h)

theorem splitOnCh_ne_nil (sep : Char) (s : List Char) : splitOnCh sep s ≠ [] := by
  cases s with
  | nil => simp [splitOnCh]
  | cons c rest => by_cases h : c = sep <;> simp [splitOnCh, h]

/-- Splitting a string with an explicit separator occurrence splits around it. -/
theorem splitOnCh_append_sep (sep : Char) (a b : List Char) :
    splitOnCh sep (a ++ sep :: b) = splitOnCh sep a ++ splitOnCh sep b := by
  induction a with
  | nil => simp [splitOnCh]
  | cons c rest ih =>
    simp only [List.cons_append, splitOnCh, List.append_eq]
    rw [ih]
    cases hr : splitOnCh sep rest with
    | nil => exact absurd hr (splitOnCh_ne_nil sep rest)
    | cons g gs => by_cases h : c = sep <;> simp [h]

/-- A string free of the separator is a single group. -/
theorem splitOnCh_of_not_mem (sep : Char) (s : List Char) (h : sep ∉ s) :
    splitOnCh sep s = [s] := by
  induction s with
  | nil => rfl
  | cons c rest ih =>
    simp only [List.mem_cons, not_or] at h
    have hc : ¬ c = sep := fun hcs => h.1 hcs.symm
    simp [splitOnCh, ih h.2, hc]

theorem joinCh_cons (sep : Char) (g : List Char) (gs : List (List Char)) :
    joinCh sep (g :: gs) = g ++ gs.flatMap (fun h => sep :: h) := rfl

theorem joinCh_append (sep : Char) (a b : List (List Char)) (ha : a ≠ []) (hb : b ≠ []) :
    joinCh sep (a ++ b) = joinCh sep a ++ sep :: joinCh sep b := by
  cases a with
  | nil => exact absurd rfl ha
  | cons g gs =>
    cases b with
    | nil => exact absurd rfl hb
    | cons h hs => simp [joinCh, List.flatMap_append]

/-- Splitting then joining on the same separator recovers the string. -/
theorem joinCh_splitOnCh (sep : Char) (s : List Char) :
    joinCh sep (splitOnCh sep s) = s := by
  induction s with
  | nil => rfl
  | cons c rest ih =>
    simp only [splitOnCh]
    cases hr : splitOnCh sep rest with
    | nil => exact absurd hr (splitOnCh_ne_nil sep rest)
    | cons g gs =>
      rw [hr] at ih
      simp only [joinCh, List.flatMap_cons] at ih ⊢
      by_cases h : c = sep
      · subst h
        simp [ih]
      · simp [h, ih]

/-! ## Path helpers of `factory.py` -/

/-- Embeds `split_path` (factory.py line 100): split the path on `"/"`, the last
component is the file name, the `"/"`-join of the others is the directory. -/
def split_path (path : List Char) : List Char × List Char :=
  let parts := splitOnCh '/' path
  (joinCh '/' parts.dropLast, parts.getLastD [])

/-- Embeds the per-source store path computed by `file_to_db` (line 121):
`".".join(abs_path.split(".")[:-1] + ["h5"])`. -/
def tmp_db_of (abs_path : List Char) : List Char :=
  joinCh '.' ((splitOnCh '.' abs_path).dropLast ++ [['h', '5']])

/-- Embeds the path rewriting in `ds_definitions_from_infos` (line 184):
`".".join(path.split(".")[:-1]) + ".h5"`. -/
def h5_path_of (path : List Char) : List Char :=
  joinCh '.' (splitOnCh '.' path).dropLast ++ ['.', 'h', '5']

theorem tmp_db_of_eq (s e : List Char) (he : '.' ∉ e) :
    tmp_db_of (s ++ '.' :: e) = s ++ ['.', 'h', '5'] := by
  have hsplit := splitOnCh_append_sep '.' s e
  rw [splitOnCh_of_not_mem '.' e he] at hsplit
  rw [tmp_db_of, hsplit, List.dropLast_concat,
    joinCh_append '.' _ _ (splitOnCh_ne_nil '.' s) (by simp),
    joinCh_splitOnCh]
  rfl

theorem h5_path_of_eq (s e : List Char) (he : '.' ∉ e) :
    h5_path_of (s ++ '.' :: e) = s ++ ['.', 'h', '5'] := by
  have hsplit := splitOnCh_append_sep '.' s e
  rw [splitOnCh_of_not_mem '.' e he] at hsplit
  rw [h5_path_of, hsplit, List.dropLast_concat, joinCh_splitOnCh]

/-! ## Errors of the pipeline -/

/-- The error taxonomy of the pipeline. `emptyInput`, `shapeMismatch`,
`dtypeMismatch` and `missingFeature` are the validation failures of the layout
planning stage (the shape check is the assertion at factory.py line 191, the dtype
check is the `.unique().item()` call at line 188); `extraction` is the failure of one
source's extraction function inside `file_to_db`; the remaining constructors model
store-capability failures during aggregation. -/
inductive Err where
  | emptyInput : Err
  | shapeMismatch (feature : String) : Err
  | dtypeMismatch (feature : String) : Err
  | missingFeature (feature : String) : Err
  | extraction (path : List Char) : Err
  | fileNotFound (path : List Char) : Err
  | missingTable (path : List Char) (table : String) : Err
  | writeMismatch (feature : String) : Err
  deriving Repr, DecidableEq

/-! ## The layout index

The class `Metadata` lives in `mmk/data/metadata.py`, which is not part of the source
tree; `factory.py` only calls it. Its operations used by the pipeline are therefore
modelled from the spec (section 4.1 of the spec and the uses in factory.py). -/

/-- One row of a layout: a half-open row range attributed to one source. -/
structure Segment where
  name : List Char
  start : Nat
  stop : Nat
  deriving Repr, DecidableEq

/-- A layout index is the ordered sequence of its segments. -/
abbrev LayoutIndex := List Segment

/-- Modelled from the spec: the cumulative-offset construction underlying
`Metadata.from_duration` — each duration yields the half-open range starting where
the previous one stopped. -/
def cumSegments (off : Nat) : List Nat → List (Nat × Nat)
  | [] => []
  | d :: ds => (off, off + d) :: cumSegments (off + d) ds

/-- Modelled from the spec: `from_durations` (spec section 4.1, used at factory.py
line 193 as `Metadata.from_duration`) computes cumulative offsets and fails with the
empty-input error on an empty sequence. -/
def from_durations (durations : List Nat) : Except Err (List (Nat × Nat)) :=
  match durations with
  | [] => .error .emptyInput
  | d :: ds => .ok (cumSegments 0 (d :: ds))

/-- Modelled from the spec: the `last_stop` accessor — the stop bound of the last
segment (0 for an empty layout). -/
def last_stop : List (Nat × Nat) → Nat
  | [] => 0
  | [s] => s.2
  | _ :: s :: rest => last_stop (s :: rest)

/-- Decidable check that adjacent ranges are contiguous: each range's stop equals
the next range's start. -/
def contiguousB : List (Nat × Nat) → Bool
  | [] => true
  | [_] => true
  | a :: b :: rest => a.2 == b.1 && contiguousB (b :: rest)

theorem contiguousB_cumSegments (ds : List Nat) (off : Nat) :
    contiguousB (cumSegments off ds) = true := by
  induction ds generalizing off with
  | nil => rfl
  | cons d rest ih =>
    cases rest with
    | nil => rfl
    | cons e es =>
      simp only [cumSegments, contiguousB, Bool.and_eq_true, beq_iff_eq]
      exact ⟨trivial, by simpa [cumSegments, contiguousB] using ih (off + d)⟩

theorem last_stop_cumSegments (off : Nat) (ds : List Nat) (h : ds ≠ []) :
    last_stop (cumSegments off ds) = off + ds.sum := by
  induction ds generalizing off with
  | nil => exact absurd rfl h
  | cons d rest ih =>
    cases rest with
    | nil => simp [cumSegments, last_stop]
    | cons e es =>
      have h2 := ih (off + d) (by simp)
      simp only [cumSegments, last_stop] at h2 ⊢
      rw [h2]
      simp [List.sum_cons]
      omega

theorem cumSegments_start_le_stop (off : Nat) (ds : List Nat) :
    ∀ p ∈ cumSegments off ds, p.1 ≤ p.2 := by
  induction ds generalizing off with
  | nil => simp [cumSegments]
  | cons d rest ih =>
    intro p hp
    simp only [cumSegments, List.mem_cons] at hp
    rcases hp with h | h
    · subst h; simp
    · exact ih (off + d) p h

/-- **C1**: for every non-empty ordered sequence of per-source durations,
`from_durations` yields segments that are contiguous (each stop equals the next
start), whose first segment starts at 0, and whose `last_stop` equals the sum of
the durations; for the empty sequence it fails with the empty-input error. -/
theorem C1_from_durations_cumulative (ds : List Nat) :
    (ds ≠ [] →
      from_durations ds = .ok (cumSegments 0 ds) ∧
      contiguousB (cumSegments 0 ds) = true ∧
      ((cumSegments 0 ds).headD (0, 0)).1 = 0 ∧
      last_stop (cumSegments 0 ds) = ds.sum) ∧
    from_durations ([] : List Nat) = .error .emptyInput := by
  constructor
  · intro h
    refine ⟨?_, contiguousB_cumSegments ds 0, ?_, ?_⟩
    · cases ds with
      | nil => exact absurd rfl h
      | cons d rest => rfl
    · cases ds with
      | nil => exact absurd rfl h
      | cons d rest => rfl
    · rw [last_stop_cumSegments 0 ds h]
      omega
  · rfl

/-- Witness for C1 at the concrete duration sequence `[3, 4, 2]`. -/
theorem C1_witness :
    from_durations [3, 4, 2] = .ok (cumSegments 0 [3, 4, 2]) ∧
    contiguousB (cumSegments 0 [3, 4, 2]) = true ∧
    ((cumSegments 0 [3, 4, 2]).headD (0, 0)).1 = 0 ∧
    last_stop (cumSegments 0 [3, 4, 2]) = [3, 4, 2].sum :=
  (C1_from_durations_cumulative [3, 4, 2]).1 (by decide)

/-- **C9**: in `file_to_db` the per-source store path is the source path with its
final dot-extension replaced by "h5" (the prefix of the path, hence the source's own
directory, is untouched), and two source paths differing only in that final
extension map to the same per-source store path. -/
theorem C9_tmp_db_extension (s e1 e2 : List Char) (h1 : '.' ∉ e1) (h2 : '.' ∉ e2) :
    tmp_db_of (s ++ '.' :: e1) = s ++ ['.', 'h', '5'] ∧
    tmp_db_of (s ++ '.' :: e1) = tmp_db_of (s ++ '.' :: e2) := by
  refine ⟨tmp_db_of_eq s e1 h1, ?_⟩
  rw [tmp_db_of_eq s e1 h1, tmp_db_of_eq s e2 h2]

/-- Witness for C9: the paths `d/a.wav` and `d/a.mp3` both map to `d/a.h5`. -/
theorem C9_witness :
    tmp_db_of ("d/a".toList ++ '.' :: "wav".toList) = "d/a".toList ++ ['.', 'h', '5'] ∧
    tmp_db_of ("d/a".toList ++ '.' :: "wav".toList) =
      tmp_db_of ("d/a".toList ++ '.' :: "mp3".toList) :=
  C9_tmp_db_extension "d/a".toList "wav".toList "mp3".toList (by decide) (by decide)

/-- **C10**: for a path containing a "/", `split_path` yields a directory and name
whose "/"-rejoin (as done in `ds_definitions_from_infos`) recovers the original
path; for a bare file name the directory is the empty string and the rejoined path
is the name with a "/" prepended, which differs from the original path. -/
theorem C10_split_path_rejoin (a b p : List Char) (hb : '/' ∉ b) (hp : '/' ∉ p) :
    (split_path (a ++ '/' :: b)).1 ++ '/' :: (split_path (a ++ '/' :: b)).2 =
      a ++ '/' :: b ∧
    split_path p = ([], p) ∧
    ([] : List Char) ++ '/' :: p ≠ p := by
  refine ⟨?_, ?_, ?_⟩
  · have hsplit := splitOnCh_append_sep '/' a b
    rw [splitOnCh_of_not_mem '/' b hb] at hsplit
    simp only [split_path, hsplit, List.dropLast_concat, List.getLastD_concat,
      joinCh_splitOnCh]
  · simp only [split_path, splitOnCh_of_not_mem '/' p hp]
    rfl
  · intro hcontra
    have := congrArg List.length hcontra
    simp at this

/-- Witness for C10 at the paths `d/a.wav` and the bare name `a.wav`. -/
theorem C10_witness :
    (split_path ("d".toList ++ '/' :: "a.wav".toList)).1 ++ '/' ::
        (split_path ("d".toList ++ '/' :: "a.wav".toList)).2 =
      "d".toList ++ '/' :: "a.wav".toList ∧
    split_path "a.wav".toList = ([], "a.wav".toList) ∧
    ([] : List Char) ++ '/' :: "a.wav".toList ≠ "a.wav".toList :=
  C10_split_path_rejoin "d".toList "a.wav".toList "a.wav".toList (by decide) (by decide)

/-! ## Per-source stores, the file-system capability, and the extraction interface -/

/-- Per feature of one source: dtype and full shape (leading axis first), as recorded
in the per-source `info` table by `file_to_db`. -/
structure FeatInfo where
  dtype : String
  shape : List Nat
  deriving Repr, DecidableEq

/-- One row of an `info` table: the source's path split into directory and name plus
the per-feature stats (the human-readable byte-size string is omitted: the pipeline
never reads it back). -/
structure SourceInfo where
  directory : List Char
  name : List Char
  feats : List (String × FeatInfo)
  deriving Repr, DecidableEq

/-- The content of one per-source h5 store: named dense datasets (lists of rows of an
abstract row type `α`), named tables (the pandas side channel — only row ranges
matter to the pipeline), and the optional `info` record. -/
structure DB (α : Type) where
  dsets : List (String × List α)
  tables : List (String × List Segment)
  info : Option SourceInfo
  deriving DecidableEq

/-- One pre-sized dataset of the aggregate store: the planned shape and dtype, and a
buffer of rows where `none` is a still-uninitialized row. -/
structure AggDataset (α : Type) where
  shape : List Nat
  dtype : String
  data : List (Option α)
  deriving DecidableEq

/-- The aggregate store: pre-sized datasets, one persisted layout table per feature
(rows of name, start, stop, exactly as written by `create_datasets_from_defs`), and
the global info and metadata tables. -/
structure AggStore (α : Type) where
  dsets : List (String × AggDataset α)
  layouts : List (String × List (List Char × Nat × Nat))
  infoTable : Option (List SourceInfo)
  metaTable : Option (List Segment)
  deriving DecidableEq

/-- The file-system capability: per-source store files keyed by path, plus the single
aggregate target file of the current run. -/
structure FS (α : Type) where
  srcs : List (List Char × DB α)
  agg : Option (AggStore α)
  deriving DecidableEq

/-- Look a key up in an association list. -/
def getAssoc {κ ν : Type} [DecidableEq κ] (k : κ) : List (κ × ν) → Option ν
  | [] => none
  | p :: rest => if p.1 = k then some p.2 else getAssoc k rest

/-- Bind a key in an association list, replacing an existing binding (h5py mode "w"
truncates an existing file). -/
def setAssoc {κ ν : Type} [DecidableEq κ] (k : κ) (v : ν) :
    List (κ × ν) → List (κ × ν)
  | [] => [(k, v)]
  | p :: rest => if p.1 = k then (k, v) :: rest else p :: setAssoc k v rest

theorem getAssoc_setAssoc {κ ν : Type} [DecidableEq κ] (k : κ) (v : ν)
    (l : List (κ × ν)) : getAssoc k (setAssoc k v l) = some v := by
  induction l with
  | nil => simp [setAssoc, getAssoc]
  | cons p rest ih => by_cases h : p.1 = k <;> simp [setAssoc, getAssoc, h, ih]

theorem setAssoc_of_not_mem {κ ν : Type} [DecidableEq κ] (k : κ) (v : ν)
    (l : List (κ × ν)) (h : k ∉ l.map Prod.fst) :
    setAssoc k v l = l ++ [(k, v)] := by
  induction l with
  | nil => rfl
  | cons p rest ih =>
    simp only [List.map_cons, List.mem_cons, not_or] at h
    have hne : ¬ p.1 = k := fun he => h.1 he.symm
    simp [setAssoc, hne, ih h.2]

/-- A value returned by the extraction function for one feature: a dense array (its
dtype, its non-leading dimensions and its rows) or a relational table. The attributes
attached to dense features are opaque to the pipeline and omitted. -/
inductive FeatValue (α : Type) where
  | dense (dtype : String) (dims : List Nat) (rows : List α)
  | table (rows : List Segment)
  deriving DecidableEq

/-- The pluggable extraction function: source path to named feature values, or a
failure (a raised exception). -/
abbrev ExtractFunc (α : Type) := List Char → Except Unit (List (String × FeatValue α))

/-- The shape h5py records for a dense dataset: leading length then the dims. -/
def denseShape {α : Type} (dims : List Nat) (rows : List α) : List Nat :=
  rows.length :: dims

/-- Embeds `file_to_db` (factory.py lines 108-141, in its default mode "w"): invoke
the extraction function first — before any file is created, so a raising extraction
function leaves no store behind — then create one fresh store at the source path with
its extension replaced by h5, holding one dataset per dense feature, one table per
tabular feature, and the `info` record (directory and name from `split_path`, plus
per-feature dtype and shape). Returns the store path. -/
def file_to_db {α : Type} (fs : FS α) (abs_path : List Char) (extract : ExtractFunc α) :
    FS α × Except Err (List Char) :=
  match extract abs_path with
  | .error _ => (fs, .error (.extraction abs_path))
  | .ok rv =>
    let tmp := tmp_db_of abs_path
    let sp := split_path abs_path
    let db : DB α :=
      { dsets := rv.filterMap (fun p =>
          match p.2 with
          | .dense _ _ rows => some (p.1, rows)
          | .table _ => none),
        tables := rv.filterMap (fun p =>
          match p.2 with
          | .dense _ _ _ => none
          | .table rows => some (p.1, rows)),
        info := some { directory := sp.1, name := sp.2,
                       feats := rv.filterMap (fun p =>
                         match p.2 with
                         | .dense dt dims rows => some (p.1, ⟨dt, denseShape dims rows⟩)
                         | .table _ => none) } }
    ({ fs with srcs := setAssoc tmp db fs.srcs }, .ok tmp)

/-- **C7**: a raising extraction function produces no per-source store (the file
system is unchanged, not even a partial store) and the error is attributed to the
source path; a successful extraction returns the h5-rewritten store path and
produces exactly one new store file, at that path. -/
theorem C7_file_to_db_stores (α : Type) (fs : FS α) (abs_path : List Char)
    (extract : ExtractFunc α) :
    (∀ u, extract abs_path = .error u →
      file_to_db fs abs_path extract = (fs, .error (.extraction abs_path))) ∧
    (∀ rv, extract abs_path = .ok rv →
      (file_to_db fs abs_path extract).2 = .ok (tmp_db_of abs_path) ∧
      (getAssoc (tmp_db_of abs_path) (file_to_db fs abs_path extract).1.srcs).isSome
        = true ∧
      (tmp_db_of abs_path ∉ fs.srcs.map Prod.fst →
        (file_to_db fs abs_path extract).1.srcs.map Prod.fst =
          fs.srcs.map Prod.fst ++ [tmp_db_of abs_path])) := by
  constructor
  · intro u hu
    simp [file_to_db, hu]
  · intro rv hrv
    refine ⟨by simp [file_to_db, hrv], ?_, ?_⟩
    · simp [file_to_db, hrv, getAssoc_setAssoc]
    · intro hnot
      simp [file_to_db, hrv, setAssoc_of_not_mem _ _ _ hnot]

/-- Witness for C7: a failing extraction on `d/a.wav` leaves an empty file system
empty; a succeeding one returns the path `d/a.h5`. -/
theorem C7_witness :
    file_to_db (FS.mk ([] : List (List Char × DB Nat)) none) "d/a.wav".toList
        (fun _ => .error ()) =
      (FS.mk [] none, .error (.extraction "d/a.wav".toList)) ∧
    (file_to_db (FS.mk ([] : List (List Char × DB Nat)) none) "d/a.wav".toList
        (fun _ => .ok [("f", .dense "i16" [] [1, 2, 3])])).2 =
      .ok (tmp_db_of "d/a.wav".toList) :=
  ⟨(C7_file_to_db_stores Nat ⟨[], none⟩ _ _).1 () rfl,
   ((C7_file_to_db_stores Nat ⟨[], none⟩ _ _).2 _ rfl).1⟩

/-! ## The parallel build scheduler

The pool of `make_db_for_each_file` is modelled by an explicit completion schedule:
tasks execute one by one in schedule order (any permutation of the task indices) and
each task deposits its result at its own input position, which is the semantics of
`Pool.starmap`. -/

/-- The result the pool task for source index `i` deposits. It depends only on the
task's own argument, never on the file-system state. -/
def taskResult {α : Type} (files : List (List Char)) (extract : ExtractFunc α)
    (i : Nat) : Except Err (List Char) :=
  match files[i]? with
  | none => .error (.extraction [])
  | some p =>
    match extract p with
    | .error _ => .error (.extraction p)
    | .ok _ => .ok (tmp_db_of p)

/-- Execute the pool tasks in completion order `sched`, threading the file system
and depositing each task's result at its own input position. -/
def runTasks {α : Type} (files : List (List Char)) (extract : ExtractFunc α) :
    List Nat → FS α → List (Option (Except Err (List Char))) →
      FS α × List (Option (Except Err (List Char)))
  | [], fs, results => (fs, results)
  | i :: rest, fs, results =>
    match files[i]? with
    | none => runTasks files extract rest fs results
    | some p =>
      let r := file_to_db fs p extract
      runTasks files extract rest r.1 (results.set i (some r.2))

/-- Collect positional results the way `Pool.starmap` returns them: the whole call
fails if any task failed, otherwise the results come back in input order. -/
def collectResults : List (Option (Except Err (List Char))) →
    Except Err (List (List Char))
  | [] => .ok []
  | none :: _ => .error (.extraction [])
  | some (.error e) :: _ => .error e
  | some (.ok p) :: rest =>
    match collectResults rest with
    | .error e => .error e
    | .ok ps => .ok (p :: ps)

/-- Embeds `make_db_for_each_file` (factory.py lines 146-152): fan `file_to_db` out
over a pool of `ncores` workers (the pool size bounds concurrency but plays no role
in result placement) and collect the per-source store paths positionally. -/
def make_db_for_each_file {α : Type} (fs : FS α) (files : List (List Char))
    (extract : ExtractFunc α) (_ncores : Nat) (sched : List Nat) :
    FS α × Except Err (List (List Char)) :=
  let r := runTasks files extract sched fs (List.replicate files.length none)
  (r.1, collectResults r.2)

theorem runTasks_results {α : Type} (files : List (List Char))
    (extract : ExtractFunc α) :
    ∀ (sched : List Nat) (fs : FS α) (results : List (Option (Except Err (List Char)))),
      (runTasks files extract sched fs results).2 =
        sched.foldl (fun res i =>
          if i < files.length
          then res.set i (some (taskResult files extract i)) else res) results := by
  intro sched
  induction sched with
  | nil => intro fs results; rfl
  | cons i rest ih =>
    intro fs results
    by_cases hi : i < files.length
    · have hp : files[i]? = some files[i] := List.getElem?_eq_getElem hi
      have hr : ∀ fs2 : FS α, (file_to_db fs2 files[i] extract).2 =
          taskResult files extract i := by
        intro fs2
        simp only [taskResult, hp]
        cases he : extract files[i] with
        | error u => simp [file_to_db, he]
        | ok rv => simp [file_to_db, he]
      simp only [runTasks, hp, List.foldl_cons, if_pos hi]
      rw [ih, hr]
    · have hp : files[i]? = none := List.getElem?_eq_none (by omega)
      simp only [runTasks, hp, List.foldl_cons, if_neg hi]
      rw [ih]

theorem foldl_set_getElem {τ : Type} (t : Nat → τ) (n : Nat) :
    ∀ (sched : List Nat) (init : List (Option τ)), n ≤ init.length → ∀ (j : Nat),
      (sched.foldl (fun res i =>
        if i < n then res.set i (some (t i)) else res) init)[j]? =
      if j ∈ sched ∧ j < n then some (some (t j)) else init[j]? := by
  intro sched
  induction sched with
  | nil => intro init _ j; simp
  | cons i rest ih =>
    intro init hlen j
    simp only [List.foldl_cons]
    rw [ih _ (by by_cases hi : i < n <;> simp [hi, hlen])]
    by_cases hjr : j ∈ rest ∧ j < n
    · simp [hjr, hjr.1, hjr.2]
    · simp only [if_neg hjr]
      by_cases hji : j = i
      · subst hji
        by_cases hj : j < n
        · simp [hj, List.getElem?_set_self (show j < init.length by omega)]
        · simp [hj]
      · by_cases hi : i < n
        · simp [hi, List.getElem?_set_ne (fun h => hji h.symm),
            fun hm : j ∈ rest ∧ j < n => hjr hm, hji]
        · simp [hi, fun hm : j ∈ rest ∧ j < n => hjr hm, hji]

theorem foldl_set_perm {τ : Type} (t : Nat → τ) (n : Nat) (sched : List Nat)
    (hperm : sched.Perm (List.range n)) :
    sched.foldl (fun res i => if i < n then res.set i (some (t i)) else res)
        (List.replicate n none) =
      (List.range n).map (fun i => some (t i)) := by
  apply List.ext_getElem?
  intro j
  rw [foldl_set_getElem t n sched _ (by simp) j]
  by_cases hj : j < n
  · have hmem : j ∈ sched := hperm.mem_iff.mpr (by simpa using hj)
    simp [hmem, hj, List.getElem?_range hj]
  · have hmem : j ∉ sched := fun hc => hj (by simpa using hperm.mem_iff.mp hc)
    have h1 : ((List.range n).map (fun i => some (t i)))[j]? = none :=
      List.getElem?_eq_none (by simpa using by omega)
    simp [hmem, hj, h1, List.getElem?_replicate]

theorem range_map_of_pointwise {τ σ : Type} (l : List τ) (g : τ → σ) (t : Nat → σ)
    (h : ∀ i (hi : i < l.length), t i = g l[i]) :
    (List.range l.length).map t = l.map g := by
  apply List.ext_getElem?
  intro j
  by_cases hj : j < l.length
  · simp [List.getElem?_range hj, List.getElem?_eq_getElem hj, h j hj]
  · have h1 : ((List.range l.length).map t)[j]? = none :=
      List.getElem?_eq_none (by simpa using by omega)
    have h2 : (l.map g)[j]? = none := List.getElem?_eq_none (by simpa using by omega)
    rw [h1, h2]

theorem collectResults_all_ok (f : List Char → List Char) :
    ∀ l : List (List Char),
      collectResults (l.map (fun p => some (.ok (f p)))) = .ok (l.map f) := by
  intro l
  induction l with
  | nil => rfl
  | cons p rest ih => simp [collectResults, ih]

/-- **C3**: for every ordered sequence of source paths, every worker-pool size, and
every completion order of the pool tasks, when all extractions succeed
`make_db_for_each_file` returns the per-source store paths in the same order the
source paths were provided, not in completion order. -/
theorem C3_starmap_preserves_order (α : Type) (fs : FS α) (files : List (List Char))
    (extract : ExtractFunc α) (ncores : Nat) (sched : List Nat)
    (hperm : sched.Perm (List.range files.length))
    (hok : ∀ p ∈ files, (extract p).isOk = true) :
    (make_db_for_each_file fs files extract ncores sched).2 =
      .ok (files.map tmp_db_of) := by
  have hres := runTasks_results files extract sched fs
    (List.replicate files.length none)
  rw [make_db_for_each_file, hres,
    foldl_set_perm (taskResult files extract) files.length sched hperm,
    range_map_of_pointwise files (fun p => some (.ok (tmp_db_of p)))
      (fun i => some (taskResult files extract i)) ?_,
    collectResults_all_ok]
  intro i hi
  have hp : files[i]? = some files[i] := List.getElem?_eq_getElem hi
  have := hok files[i] (List.getElem_mem hi)
  simp only [taskResult, hp]
  cases he : extract files[i] with
  | error u => rw [he] at this; simp [Except.isOk, Except.toBool] at this
  | ok rv => rfl

/-- Witness for C3: two sources completing in reversed order [1, 0] still return
their store paths in input order. -/
theorem C3_witness :
    (make_db_for_each_file (FS.mk ([] : List (List Char × DB Nat)) none)
        ["d/a.wav".toList, "d/b.wav".toList] (fun _ => .ok []) 2 [1, 0]).2 =
      .ok (["d/a.wav".toList, "d/b.wav".toList].map tmp_db_of) :=
  C3_starmap_preserves_order Nat ⟨[], none⟩ ["d/a.wav".toList, "d/b.wav".toList]
    (fun _ => .ok []) 2 [1, 0] (by decide) (fun p _ => rfl)

theorem mem_keys_setAssoc_self {κ ν : Type} [DecidableEq κ] (k : κ) (v : ν)
    (l : List (κ × ν)) : k ∈ (setAssoc k v l).map Prod.fst := by
  induction l with
  | nil => simp [setAssoc]
  | cons p rest ih => by_cases h : p.1 = k <;> simp [setAssoc, h, ih]

theorem mem_keys_setAssoc_of_mem {κ ν : Type} [DecidableEq κ] (k k2 : κ) (v : ν)
    (l : List (κ × ν)) (h : k ∈ l.map Prod.fst) :
    k ∈ (setAssoc k2 v l).map Prod.fst := by
  induction l with
  | nil => simp at h
  | cons p rest ih =>
    simp only [List.map_cons, List.mem_cons] at h
    by_cases h2 : p.1 = k2
    · rcases h with h | h
      · subst h2; simp [setAssoc, h]
      · simp [setAssoc, h2, h]
    · rcases h with h | h
      · simp [setAssoc, h2, h]
      · simp [setAssoc, h2, ih h]

theorem runTasks_preserves_key {α : Type} (files : List (List Char))
    (extract : ExtractFunc α) (k : List Char) :
    ∀ (sched : List Nat) (fs : FS α) (results),
      k ∈ fs.srcs.map Prod.fst →
      k ∈ (runTasks files extract sched fs results).1.srcs.map Prod.fst := by
  intro sched
  induction sched with
  | nil => intro fs results h; exact h
  | cons i rest ih =>
    intro fs results h
    cases hp : files[i]? with
    | none =>
      simp only [runTasks, hp]
      exact ih _ _ h
    | some p =>
      simp only [runTasks, hp]
      apply ih
      cases he : extract p with
      | error u =>
        have h1 : (file_to_db fs p extract).1 = fs := by simp only [file_to_db, he]
        rw [h1]; exact h
      | ok rv =>
        simp only [file_to_db, he]
        exact mem_keys_setAssoc_of_mem _ _ _ _ h

theorem runTasks_writes_store {α : Type} (files : List (List Char))
    (extract : ExtractFunc α) :
    ∀ (sched : List Nat) (fs : FS α) (results) (i : Nat) (hi : i < files.length),
      i ∈ sched → (extract files[i]).isOk = true →
      tmp_db_of files[i] ∈
        (runTasks files extract sched fs results).1.srcs.map Prod.fst := by
  intro sched
  induction sched with
  | nil => intro fs results i hi hmem; simp at hmem
  | cons a rest ih =>
    intro fs results i hi hmem hok
    rcases List.mem_cons.mp hmem with heq | hmem2
    · subst heq
      have hp : files[i]? = some files[i] := List.getElem?_eq_getElem hi
      cases he : extract files[i] with
      | error u => rw [he] at hok; simp [Except.isOk, Except.toBool] at hok
      | ok rv =>
        simp only [runTasks, hp]
        apply runTasks_preserves_key
        simp only [file_to_db, he]
        exact mem_keys_setAssoc_self _ _ _
    · cases hp : files[a]? with
      | none => simp only [runTasks, hp]; exact ih _ _ i hi hmem2 hok
      | some p => simp only [runTasks, hp]; exact ih _ _ i hi hmem2 hok

theorem collectResults_has_error :
    ∀ (rs : List (Except Err (List Char))),
      (∃ r ∈ rs, r.isOk = false) →
      ∃ e, collectResults (rs.map some) = .error e ∧ .error e ∈ rs := by
  intro rs
  induction rs with
  | nil => intro h; simp at h
  | cons r rest ih =>
    intro h
    cases r with
    | error e => exact ⟨e, by simp [collectResults], by simp⟩
    | ok p =>
      have hrest : ∃ r ∈ rest, r.isOk = false := by
        obtain ⟨r, hr, hko⟩ := h
        rcases List.mem_cons.mp hr with heq | hm
        · subst heq; simp [Except.isOk, Except.toBool] at hko
        · exact ⟨r, hm, hko⟩
      obtain ⟨e, he, hemem⟩ := ih hrest
      exact ⟨e, by simp [collectResults, he], by simp [hemem]⟩

/-- **C4 (amended)**: a single source's extraction failure does not prevent the
sibling tasks from producing their per-source stores, and the failure is collected
and attributed to a failing source path; but the only policy `make_db_for_each_file`
implements is the strict one — any failure fails the whole call, so no aggregate is
built from the surviving sources. A lenient mode does not exist in the code. -/
theorem C4_strict_only (α : Type) (fs : FS α) (files : List (List Char))
    (extract : ExtractFunc α) (ncores : Nat) (sched : List Nat)
    (hperm : sched.Perm (List.range files.length))
    (hfail : ∃ p ∈ files, (extract p).isOk = false) :
    (∃ p ∈ files, (extract p).isOk = false ∧
      (make_db_for_each_file fs files extract ncores sched).2 =
        .error (.extraction p)) ∧
    (∀ i (hi : i < files.length), (extract files[i]).isOk = true →
      tmp_db_of files[i] ∈
        (make_db_for_each_file fs files extract ncores sched).1.srcs.map Prod.fst) := by
  constructor
  · have hres := runTasks_results files extract sched fs
      (List.replicate files.length none)
    have hmap :
        (List.range files.length).map
            (fun i => some (taskResult files extract i)) =
          ((List.range files.length).map (taskResult files extract)).map some := by
      rw [List.map_map]; rfl
    have hex : ∃ r ∈ (List.range files.length).map (taskResult files extract),
        r.isOk = false := by
      obtain ⟨p, hp, hko⟩ := hfail
      obtain ⟨i, hi, hpi⟩ := List.mem_iff_getElem.mp hp
      refine ⟨taskResult files extract i,
        List.mem_map_of_mem _ (List.mem_range.mpr hi), ?_⟩
      simp only [taskResult, List.getElem?_eq_getElem hi, hpi]
      cases he : extract p with
      | error u => simp [Except.isOk, Except.toBool]
      | ok rv => rw [he] at hko; simp [Except.isOk, Except.toBool] at hko
    obtain ⟨e, hcoll, hemem⟩ := collectResults_has_error _ hex
    obtain ⟨j, hj, htj⟩ := List.mem_map.mp hemem
    have hjlt : j < files.length := List.mem_range.mp hj
    have hpj : files[j]? = some files[j] := List.getElem?_eq_getElem hjlt
    refine ⟨files[j], List.getElem_mem hjlt, ?_, ?_⟩
    · simp only [taskResult, hpj] at htj
      cases he : extract files[j] with
      | error u => simp [he, Except.isOk, Except.toBool]
      | ok rv => rw [he] at htj; simp at htj
    · rw [make_db_for_each_file, hres,
        foldl_set_perm (taskResult files extract) files.length sched hperm, hmap,
        hcoll]
      simp only [taskResult, hpj] at htj
      cases he : extract files[j] with
      | error u =>
        rw [he] at htj
        simp only [Except.error.injEq] at htj
        rw [htj]
      | ok rv => rw [he] at htj; simp at htj
  · intro i hi hok
    have hmem : i ∈ sched := hperm.mem_iff.mpr (List.mem_range.mpr hi)
    exact runTasks_writes_store files extract sched fs _ i hi hmem hok

/-- The five sources of the C4 scenario. -/
def c4files : List (List Char) :=
  ["d/a.wav".toList, "d/b.wav".toList, "d/c.wav".toList,
   "d/d.wav".toList, "d/e.wav".toList]

/-- An extraction function failing exactly on the third source. -/
def c4extract : ExtractFunc Nat := fun p =>
  if p = "d/c.wav".toList then .error ()
  else .ok [("f", .dense "i16" [] [0])]

/-- Counterexample to C4 as stated: with five sources of which one fails
extraction, the build returns an error instead of an aggregate over the remaining
four — there is no lenient mode — even though the four sibling stores were
produced. -/
theorem C4_counterexample :
    (make_db_for_each_file (FS.mk ([] : List (List Char × DB Nat)) none) c4files
        c4extract 4 [0, 1, 2, 3, 4]).2 = .error (.extraction "d/c.wav".toList) ∧
    (make_db_for_each_file (FS.mk ([] : List (List Char × DB Nat)) none) c4files
        c4extract 4 [0, 1, 2, 3, 4]).1.srcs.map Prod.fst =
      ["d/a.h5".toList, "d/b.h5".toList, "d/d.h5".toList, "d/e.h5".toList] := by
  constructor <;> rfl

/-- Witness for the amended C4 at the five-source scenario. -/
theorem C4_witness :
    (∃ p ∈ c4files, (c4extract p).isOk = false ∧
      (make_db_for_each_file (FS.mk ([] : List (List Char × DB Nat)) none) c4files
          c4extract 4 [0, 1, 2, 3, 4]).2 = .error (.extraction p)) ∧
    (∀ i (hi : i < c4files.length), (c4extract c4files[i]).isOk = true →
      tmp_db_of c4files[i] ∈
        (make_db_for_each_file (FS.mk ([] : List (List Char × DB Nat)) none) c4files
            c4extract 4 [0, 1, 2, 3, 4]).1.srcs.map Prod.fst) :=
  C4_strict_only Nat ⟨[], none⟩ c4files c4extract 4 [0, 1, 2, 3, 4]
    (by decide) (by decide)

/-! ## Layout planning and aggregation -/

/-- The path without its final extension: `".".join(path.split(".")[:-1])`
(factory.py line 170). -/
def stemOf (path : List Char) : List Char :=
  joinCh '.' (splitOnCh '.' path).dropLast

/-- Embeds `Database(db).info` as used by `collect_infos`: read the per-source
`info` table from the store at `path` (the class `Database` itself is in
`mmk/data/api.py`, outside the tree; reading the persisted info table back is its
documented role in the spec). -/
def Database_info {α : Type} (fs : FS α) (path : List Char) : Except Err SourceInfo :=
  match getAssoc path fs.srcs with
  | none => .error (.fileNotFound path)
  | some db =>
    match db.info with
    | none => .error (.missingTable path "info")
    | some si => .ok si

/-- Embeds `collect_infos` (factory.py lines 157-161): read and concatenate the
per-source info rows, in the order of the store paths. -/
def collect_infos {α : Type} (fs : FS α) :
    List (List Char) → Except Err (List SourceInfo)
  | [] => .ok []
  | db :: rest =>
    match Database_info fs db with
    | .error e => .error e
    | .ok si =>
      match collect_infos fs rest with
      | .error e => .error e
      | .ok more => .ok (si :: more)

/-- Modelled from the spec: the `last_stop` accessor on a metadata table. -/
def lastStopSeg : List Segment → Nat
  | [] => 0
  | [s] => s.stop
  | _ :: s :: rest => lastStopSeg (s :: rest)

/-- Embeds `Database(db).metadata`: read the per-source `metadata` table. -/
def Database_metadata {α : Type} (fs : FS α) (path : List Char) :
    Except Err (List Segment) :=
  match getAssoc path fs.srcs with
  | none => .error (.fileNotFound path)
  | some db =>
    match getAssoc "metadata" db.tables with
    | none => .error (.missingTable path "metadata")
    | some t => .ok t

/-- Embeds `collect_metadatas` (factory.py lines 164-173): shift each store's
metadata rows by the running offset, rewrite the name column to the store path
without its extension, and concatenate; the offset after a store is the shifted
table's `last_stop`. -/
def collect_metadatas_from {α : Type} (fs : FS α) :
    List (List Char) → Nat → Except Err (List Segment)
  | [], _ => .ok []
  | db :: rest, off =>
    match Database_metadata fs db with
    | .error e => .error e
    | .ok t =>
      let shifted := t.map (fun s =>
        { name := stemOf db, start := s.start + off, stop := s.stop + off : Segment })
      match collect_metadatas_from fs rest (lastStopSeg shifted) with
      | .error e => .error e
      | .ok more => .ok (shifted ++ more)

def collect_metadatas {α : Type} (fs : FS α) (dbs : List (List Char)) :
    Except Err (List Segment) :=
  collect_metadatas_from fs dbs 0

/-- The stats of feature `f` in one info row. -/
def lookupFeat (f : String) (si : SourceInfo) : Option FeatInfo :=
  (si.feats.find? (fun p => p.1 == f)).map Prod.snd

/-- All feature names over all info rows, deduplicated (the Python code iterates a
set; no property below depends on the iteration order, the model keeps first-seen
order). -/
def featNames (infos : List SourceInfo) : List String :=
  (infos.flatMap (fun si => si.feats.map Prod.fst)).dedup

/-- The stats of feature `f` across every source, failing if a source misses the
feature (in pandas a missing feature leaves NaN columns and the `.unique().item()`
call fails — the hard missing-feature error of the spec). -/
def lookupAll (f : String) : List SourceInfo → Except Err (List FeatInfo)
  | [] => .ok []
  | si :: rest =>
    match lookupFeat f si with
    | none => .error (.missingFeature f)
    | some fi =>
      match lookupAll f rest with
      | .error e => .error e
      | .ok more => .ok (fi :: more)

/-- The h5 path of one info row, as computed at factory.py lines 182-184: rejoin
directory and name with "/" and replace the extension by ".h5". -/
def infoPath (si : SourceInfo) : List Char :=
  h5_path_of (joinCh '/' [si.directory, si.name])

/-- The contract the allocator turns into a pre-sized dataset: total shape, dtype,
and the layout of the feature. -/
structure FeatureDef where
  shape : List Nat
  dtype : String
  layout : LayoutIndex
  deriving Repr, DecidableEq

/-- One feature's definition (the loop body at factory.py lines 187-196): the
unique dtype (`.unique().item()`), the shared non-leading dims (the assertion at
line 191), the layout from the leading sizes, the total shape
`(last_stop, *dims)`, and the layout indexed by the source store paths. -/
def dsDefinitionFor (infos : List SourceInfo) (paths : List (List Char))
    (f : String) : Except Err FeatureDef :=
  match lookupAll f infos with
  | .error e => .error e
  | .ok featsF =>
    match (featsF.map FeatInfo.dtype).dedup with
    | [dt] =>
      let shapes := featsF.map FeatInfo.shape
      let dims := (shapes.headD []).drop 1
      if shapes.all (fun s => s.drop 1 == dims) then
        match from_durations (shapes.map (fun s => s.headD 0)) with
        | .error e => .error e
        | .ok segs =>
          .ok { shape := last_stop segs :: dims, dtype := dt,
                layout := List.zipWith (fun p (se : Nat × Nat) =>
                  { name := p, start := se.1, stop := se.2 }) paths segs }
      else .error (.shapeMismatch f)
    | _ => .error (.dtypeMismatch f)

def ds_definitions_go (infos : List SourceInfo) (paths : List (List Char)) :
    List String → Except Err (List (String × FeatureDef))
  | [] => .ok []
  | f :: rest =>
    match dsDefinitionFor infos paths f with
    | .error e => .error e
    | .ok d =>
      match ds_definitions_go infos paths rest with
      | .error e => .error e
      | .ok more => .ok ((f, d) :: more)

/-- Embeds `ds_definitions_from_infos` (factory.py lines 180-197). -/
def ds_definitions_from_infos (infos : List SourceInfo) :
    Except Err (List (String × FeatureDef)) :=
  ds_definitions_go infos (infos.map infoPath) (featNames infos)

/-- Persist a layout the way `create_datasets_from_defs` does (reset_index, rename
the index to the name column): one row of name, start, stop per segment, in
segment order. -/
def persistLayout (l : LayoutIndex) : List (List Char × Nat × Nat) :=
  l.map (fun s => (s.name, s.start, s.stop))

/-- Modelled from the spec: wrap a reloaded layout table back into segments, as
`Metadata(pd.read_hdf(..))` does in `make_integration_args`. -/
def loadLayout (rows : List (List Char × Nat × Nat)) : LayoutIndex :=
  rows.map (fun r => { name := r.1, start := r.2.1, stop := r.2.2 })

/-- Embeds `create_datasets_from_defs` (factory.py lines 200-213): pre-create every
aggregate dataset at its planned shape, all rows uninitialized, and persist each
layout table next to it. -/
def create_datasets_from_defs {α : Type} (defs : List (String × FeatureDef)) :
    AggStore α :=
  { dsets := defs.map (fun p =>
      (p.1, { shape := p.2.shape, dtype := p.2.dtype,
              data := List.replicate (p.2.shape.headD 0) none })),
    layouts := defs.map (fun p => (p.1, persistLayout p.2.layout)),
    infoTable := none, metaTable := none }

/-- Modelled from the spec: `slices()` — the ordered decomposition of a layout into
one row range per segment, used to drive the scatter writes. -/
def slicesOf (l : LayoutIndex) : List (Nat × Nat) :=
  l.map (fun s => (s.start, s.stop))

/-- Embeds `make_integration_args` (factory.py lines 216-223): reload each
persisted layout and emit one (source, feature, range) triple per segment by
zipping the name column with `slices()`. -/
def make_integration_args {α : Type} (agg : AggStore α) :
    List (List Char × String × Nat × Nat) :=
  agg.layouts.flatMap (fun p =>
    let df := loadLayout p.2
    List.zipWith (fun nm (sl : Nat × Nat) => (nm, p.1, sl.1, sl.2))
      (df.map Segment.name) (slicesOf df))

/-- Write `rows` into the buffer at offset `start` (numpy
`target[start:stop] = data`). -/
def writeSeg {α : Type} (buf : List (Option α)) (start : Nat) (rows : List α) :
    List (Option α) :=
  buf.take start ++ rows.map some ++ buf.drop (start + rows.length)

/-- Embeds `integrate` (factory.py lines 226-231): read the full `key` dataset from
the source store and write it into the aggregate dataset at the segment's range;
the write fails if the source rows do not fit the range (numpy broadcast). -/
def integrate {α : Type} (fs : FS α) (src : List Char) (key : String)
    (start stop : Nat) : FS α × Option Err :=
  match getAssoc src fs.srcs with
  | none => (fs, some (.fileNotFound src))
  | some db =>
    match getAssoc key db.dsets with
    | none => (fs, some (.missingTable src key))
    | some rows =>
      match fs.agg with
      | none => (fs, some (.fileNotFound []))
      | some agg =>
        match getAssoc key agg.dsets with
        | none => (fs, some (.missingTable [] key))
        | some ds =>
          if rows.length = stop - start then
            let ds2 : AggDataset α := { ds with data := writeSeg ds.data start rows }
            let agg2 : AggStore α := { agg with dsets := setAssoc key ds2 agg.dsets }
            ({ fs with agg := some agg2 }, none)
          else (fs, some (.writeMismatch key))

/-- Run the integration loop (factory.py line 242), stopping at the first failing
pair the way the raising Python for-loop does. -/
def integrateAll {α : Type} (fs : FS α) :
    List (List Char × String × Nat × Nat) → FS α × Option Err
  | [] => (fs, none)
  | a :: rest =>
    match integrate fs a.1 a.2.1 a.2.2.1 a.2.2.2 with
    | (fs2, none) => integrateAll fs2 rest
    | (fs2, some e) => (fs2, some e)

/-- Embeds `aggregate_dbs` (factory.py lines 236-247): collect infos and metadata,
plan the layout, pre-create the aggregate store, scatter every (feature, source)
pair, optionally delete the per-source stores, and persist the global info and
metadata tables. A failure leaves the file system as it stood at that point. -/
def aggregate_dbs {α : Type} (fs : FS α) (dbs : List (List Char))
    (remove_sources : Bool) : FS α × Option Err :=
  match collect_infos fs dbs with
  | .error e => (fs, some e)
  | .ok infos =>
    match collect_metadatas fs dbs with
    | .error e => (fs, some e)
    | .ok metadata =>
      match ds_definitions_from_infos infos with
      | .error e => (fs, some e)
      | .ok defs =>
        let agg : AggStore α := create_datasets_from_defs defs
        let fs1 : FS α := { fs with agg := some agg }
        match integrateAll fs1 (make_integration_args agg) with
        | (fs2, some e) => (fs2, some e)
        | (fs2, none) =>
          let fs3 : FS α :=
            if remove_sources
            then { fs2 with srcs := fs2.srcs.filter (fun p => !(dbs.contains p.1)) }
            else fs2
          match fs3.agg with
          | none => (fs3, some (.fileNotFound []))
          | some agg2 =>
            let agg3 : AggStore α :=
              { agg2 with infoTable := some infos, metaTable := some metadata }
            ({ fs3 with agg := some agg3 }, none)

/-- Embeds `make_root_db` (factory.py lines 250-253): build every per-source store
in parallel, then aggregate. -/
def make_root_db {α : Type} (fs : FS α) (files : List (List Char))
    (extract : ExtractFunc α) (ncores : Nat) (sched : List Nat)
    (remove_sources : Bool) : FS α × Option Err :=
  match make_db_for_each_file fs files extract ncores sched with
  | (fs2, .error e) => (fs2, some e)
  | (fs2, .ok dbs) => aggregate_dbs fs2 dbs remove_sources

/-! ## C6: the layout round-trips through persistence -/

theorem loadLayout_persistLayout (l : LayoutIndex) :
    loadLayout (persistLayout l) = l := by
  induction l with
  | nil => rfl
  | cons s rest ih =>
    cases s
    simp only [persistLayout, loadLayout, List.map_cons, List.cons.injEq] at ih ⊢
    exact ⟨trivial, ih⟩

theorem zipWith_name_slices (f : String) (l : LayoutIndex) :
    List.zipWith (fun nm (sl : Nat × Nat) => (nm, f, sl.1, sl.2))
      (l.map Segment.name) (slicesOf l) =
    l.map (fun s => (s.name, f, s.start, s.stop)) := by
  induction l with
  | nil => rfl
  | cons s rest ih => simp [slicesOf, ih]

/-- **C6**: persisting a LayoutIndex into the aggregate store's layout table (as
`create_datasets_from_defs` does) and reloading it (as `make_integration_args`
does) yields the identical ordered segment sequence — same names, same bounds, same
order — and consequently the integration args enumerate exactly the planned
segments of every feature, in order. -/
theorem C6_layout_roundtrip {α : Type} (defs : List (String × FeatureDef))
    (l : LayoutIndex) :
    loadLayout (persistLayout l) = l ∧
    (create_datasets_from_defs (α := α) defs).layouts =
      defs.map (fun p => (p.1, persistLayout p.2.layout)) ∧
    make_integration_args (create_datasets_from_defs (α := α) defs) =
      defs.flatMap (fun p =>
        p.2.layout.map (fun s => (s.name, p.1, s.start, s.stop))) := by
  refine ⟨loadLayout_persistLayout l, rfl, ?_⟩
  induction defs with
  | nil => rfl
  | cons p rest ih =>
    simp only [make_integration_args, create_datasets_from_defs, List.map_cons,
      List.flatMap_cons] at ih ⊢
    rw [loadLayout_persistLayout, zipWith_name_slices, ih]

/-! ## C5: validation happens strictly before allocation -/

/-- **C5**: when layout planning fails (in particular on a non-leading shape
mismatch between two sources), `aggregate_dbs` raises the planning error before the
allocator runs and returns the file system untouched — so if no aggregate store
existed before the call, none exists when the error is raised. -/
theorem C5_validation_before_allocation {α : Type} (fs : FS α)
    (dbs : List (List Char)) (rm : Bool) (infos : List SourceInfo)
    (metadata : List Segment) (e : Err)
    (hinfos : collect_infos fs dbs = .ok infos)
    (hmd : collect_metadatas fs dbs = .ok metadata)
    (hdefs : ds_definitions_from_infos infos = .error e) :
    aggregate_dbs fs dbs rm = (fs, some e) := by
  simp only [aggregate_dbs, hinfos, hmd, hdefs]

/-- An extraction yielding feature "f" with shape (100, 8). -/
def c5extractA : ExtractFunc Nat := fun _ =>
  .ok [("f", .dense "float32" [8] (List.replicate 100 0)),
       ("metadata", .table [{ name := [], start := 0, stop := 100 }])]

/-- An extraction yielding feature "f" with shape (50, 16). -/
def c5extractB : ExtractFunc Nat := fun _ =>
  .ok [("f", .dense "float32" [16] (List.replicate 50 0)),
       ("metadata", .table [{ name := [], start := 0, stop := 50 }])]

/-- The file system after building the two conflicting per-source stores. -/
def c5fs : FS Nat :=
  (file_to_db (file_to_db (FS.mk [] none) "d/a.wav".toList c5extractA).1
    "d/b.wav".toList c5extractB).1

def c5dbs : List (List Char) := ["d/a.h5".toList, "d/b.h5".toList]

/-- Witness for C5: sources with feature "f" of shapes (100, 8) and (50, 16) make
`aggregate_dbs` fail with the shape-mismatch error while no aggregate store
dataset exists. -/
theorem C5_witness :
    aggregate_dbs c5fs c5dbs false = (c5fs, some (Err.shapeMismatch "f")) ∧
    c5fs.agg = none :=
  ⟨C5_validation_before_allocation c5fs c5dbs false _ _ _ rfl rfl rfl, rfl⟩

/-! ## C8: zero-width segments are not rejected (corrected) -/

theorem mem_zipWith_segment (paths : List (List Char)) (segs : List (Nat × Nat))
    (s : Segment)
    (h : s ∈ List.zipWith (fun p (se : Nat × Nat) =>
      { name := p, start := se.1, stop := se.2 : Segment }) paths segs) :
    (s.start, s.stop) ∈ segs := by
  induction paths generalizing segs with
  | nil => simp at h
  | cons p ps ih =>
    cases segs with
    | nil => simp at h
    | cons se ses =>
      simp only [List.zipWith_cons_cons, List.mem_cons] at h
      rcases h with h | h
      · subst h; simp
      · exact List.mem_cons_of_mem _ (ih ses h)

theorem from_durations_ok_segs (durations : List Nat) (segs : List (Nat × Nat))
    (h : from_durations durations = .ok segs) : segs = cumSegments 0 durations := by
  cases durations with
  | nil => simp [from_durations] at h
  | cons d ds =>
    simp only [from_durations, Except.ok.injEq] at h
    exact h.symm

theorem from_durations_ok_le (durations : List Nat) (segs : List (Nat × Nat))
    (h : from_durations durations = .ok segs) : ∀ p ∈ segs, p.1 ≤ p.2 := by
  rw [from_durations_ok_segs durations segs h]
  exact cumSegments_start_le_stop 0 durations

theorem dsDefinitionFor_layout_le (infos : List SourceInfo)
    (paths : List (List Char)) (f : String) (d : FeatureDef)
    (h : dsDefinitionFor infos paths f = .ok d) :
    ∀ s ∈ d.layout, s.start ≤ s.stop := by
  intro s hs
  unfold dsDefinitionFor at h
  split at h
  · simp at h
  · split at h
    · dsimp only at h
      split at h
      · split at h
        · simp at h
        · rename_i segs hdur
          simp only [Except.ok.injEq] at h
          subst h
          simp only at hs
          exact from_durations_ok_le _ segs hdur (s.start, s.stop)
            (mem_zipWith_segment paths segs s hs)
      · simp at h
    · simp at h

theorem ds_definitions_go_layout_le (infos : List SourceInfo)
    (paths : List (List Char)) :
    ∀ (fl : List String) (defs : List (String × FeatureDef)),
      ds_definitions_go infos paths fl = .ok defs →
      ∀ p ∈ defs, ∀ s ∈ p.2.layout, s.start ≤ s.stop := by
  intro fl
  induction fl with
  | nil =>
    intro defs h p hp
    simp only [ds_definitions_go, Except.ok.injEq] at h
    subst h
    simp at hp
  | cons f rest ih =>
    intro defs h p hp
    simp only [ds_definitions_go] at h
    cases hd : dsDefinitionFor infos paths f with
    | error e => rw [hd] at h; simp at h
    | ok d =>
      rw [hd] at h
      cases hmore : ds_definitions_go infos paths rest with
      | error e => rw [hmore] at h; simp at h
      | ok more =>
        rw [hmore] at h
        simp only [Except.ok.injEq] at h
        subst h
        rcases List.mem_cons.mp hp with heq | hm
        · subst heq; exact dsDefinitionFor_layout_le infos paths f d hd
        · exact ih more hmore p hm

/-- **C8 (amended)**: every segment of every layout planned by
`ds_definitions_from_infos` satisfies start ≤ stop; a source whose feature has
leading size 0 is neither rejected nor skipped, so the strict bound start < stop
fails — such a source yields a zero-width segment (see the counterexample). -/
theorem C8_start_le_stop (infos : List SourceInfo)
    (defs : List (String × FeatureDef))
    (h : ds_definitions_from_infos infos = .ok defs) :
    ∀ p ∈ defs, ∀ s ∈ p.2.layout, s.start ≤ s.stop :=
  ds_definitions_go_layout_le infos (infos.map infoPath) (featNames infos) defs h

/-- Per-source stores for the C8 scenario: feature "f" with 0 rows in the first
source and 5 rows in the second. -/
def c8fs : FS Nat :=
  (file_to_db (file_to_db (FS.mk [] none) "d/a.wav".toList
      (fun _ => .ok [("f", .dense "i16" [] ([] : List Nat))])).1
    "d/b.wav".toList (fun _ => .ok [("f", .dense "i16" [] [7, 7, 7, 7, 7])])).1

/-- The info rows the pipeline collects from the two C8 stores. -/
def c8infos : List SourceInfo :=
  [{ directory := "d".toList, name := "a.wav".toList,
     feats := [("f", { dtype := "i16", shape := [0] })] },
   { directory := "d".toList, name := "b.wav".toList,
     feats := [("f", { dtype := "i16", shape := [5] })] }]

/-- The feature definitions planned from the C8 infos: the first segment is
zero-width. -/
def c8defs : List (String × FeatureDef) :=
  [("f", { shape := [5], dtype := "i16",
           layout := [{ name := "d/a.h5".toList, start := 0, stop := 0 },
                      { name := "d/b.h5".toList, start := 0, stop := 5 }] })]

/-- Counterexample to C8 as stated: the pipeline accepts a source of leading size 0
(collect_infos really yields these rows from stores built by `file_to_db`) and the
planned layout contains a segment with start = stop, so the strict invariant
start < stop is violated. -/
theorem C8_counterexample :
    collect_infos c8fs ["d/a.h5".toList, "d/b.h5".toList] = .ok c8infos ∧
    ds_definitions_from_infos c8infos = .ok c8defs ∧
    (c8defs.all (fun p => p.2.layout.all
      (fun s => decide (s.start < s.stop)))) = false := by
  refine ⟨rfl, rfl, rfl⟩

/-- Witness for the amended C8 at the second planned segment of the scenario. -/
theorem C8_witness :
    ({ name := "d/b.h5".toList, start := 0, stop := 5 } : Segment).start ≤
      ({ name := "d/b.h5".toList, start := 0, stop := 5 } : Segment).stop :=
  C8_start_le_stop c8infos c8defs rfl
    ("f", { shape := [5], dtype := "i16",
            layout := [{ name := "d/a.h5".toList, start := 0, stop := 0 },
                       { name := "d/b.h5".toList, start := 0, stop := 5 }] })
    (by decide) { name := "d/b.h5".toList, start := 0, stop := 5 } (by decide)

/-! ## C2: the end-to-end three-source scenario -/

theorem writeSeg_filled {α : Type} (pre : List (Option α)) (rows : List α)
    (suf : List (Option α)) :
    writeSeg (pre ++ (List.replicate rows.length none ++ suf)) pre.length rows =
      pre ++ rows.map some ++ suf := by
  have h1 : (pre ++ (List.replicate rows.length none ++ suf)).take pre.length =
      pre := List.take_left _ _
  have h2 : (pre ++ (List.replicate rows.length none ++ suf)).drop
      (pre.length + rows.length) = suf := by
    rw [← List.append_assoc]
    exact List.drop_left' (by simp)
  simp only [writeSeg, h1, h2]

/-- The aggregate store after one scatter write into `key`. -/
def aggWrite {α : Type} (agg : AggStore α) (key : String) (ds : AggDataset α)
    (start : Nat) (rows : List α) : AggStore α :=
  { agg with dsets := setAssoc key { ds with data := writeSeg ds.data start rows } agg.dsets }

/-- The aggregate store after the final info and metadata tables are written. -/
def aggFinish {α : Type} (agg : AggStore α) (infos : List SourceInfo)
    (md : List Segment) : AggStore α :=
  { agg with infoTable := some infos, metaTable := some md }

theorem integrate_step {α : Type} (fs : FS α) (src : List Char) (key : String)
    (start stop : Nat) (rows : List α) (db : DB α) (agg : AggStore α)
    (ds : AggDataset α)
    (hsrc : getAssoc src fs.srcs = some db)
    (hrows : getAssoc key db.dsets = some rows)
    (hagg : fs.agg = some agg)
    (hds : getAssoc key agg.dsets = some ds)
    (hlen : rows.length = stop - start) :
    integrate fs src key start stop =
      ({ fs with agg := some (aggWrite agg key ds start rows) }, none) := by
  simp only [integrate, hsrc, hrows, hagg, hds, if_pos hlen, aggWrite]

theorem aggregate_dbs_ok {α : Type} (fs : FS α) (dbs : List (List Char))
    (infos : List SourceInfo) (md : List Segment)
    (defs : List (String × FeatureDef)) (fs2 : FS α) (agg2 : AggStore α)
    (hinfos : collect_infos fs dbs = .ok infos)
    (hmd : collect_metadatas fs dbs = .ok md)
    (hdefs : ds_definitions_from_infos infos = .ok defs)
    (hint : integrateAll { fs with agg := some (create_datasets_from_defs defs) }
        (make_integration_args (create_datasets_from_defs (α := α) defs)) =
      (fs2, none))
    (hagg2 : fs2.agg = some agg2) :
    aggregate_dbs fs dbs false =
      ({ fs2 with agg := some (aggFinish agg2 infos md) }, none) := by
  simp only [aggregate_dbs, hinfos, hmd, hdefs, hint, aggFinish]
  simp [hagg2]

/-- The three source files of the C2 scenario. -/
def c2files : List (List Char) :=
  ["d/a.wav".toList, "d/b.wav".toList, "d/c.wav".toList]

/-- The three per-source store paths of the C2 scenario. -/
def c2paths : List (List Char) :=
  ["d/a.h5".toList, "d/b.h5".toList, "d/c.h5".toList]

/-- An extraction function giving feature "f" the rows `a`, `b` or `c` depending on
the source. -/
def c2extract {α : Type} (a b c : List α) : ExtractFunc α := fun p =>
  if p = "d/a.wav".toList then
    .ok [("f", .dense "f32" [] a),
         ("metadata", .table [{ name := [], start := 0, stop := a.length }])]
  else if p = "d/b.wav".toList then
    .ok [("f", .dense "f32" [] b),
         ("metadata", .table [{ name := [], start := 0, stop := b.length }])]
  else
    .ok [("f", .dense "f32" [] c),
         ("metadata", .table [{ name := [], start := 0, stop := c.length }])]

/-- The full pipeline run of the C2 scenario. -/
def c2run {α : Type} (a b c : List α) : FS α × Option Err :=
  make_root_db (FS.mk [] none) c2files (c2extract a b c) 3 [0, 1, 2] false

/-- One per-source store of the C2 scenario, as `file_to_db` builds it. -/
def c2db {α : Type} (nm : List Char) (rows : List α) : DB α :=
  { dsets := [("f", rows)],
    tables := [("metadata", [{ name := [], start := 0, stop := rows.length }])],
    info := some { directory := "d".toList, name := nm,
                   feats := [("f", { dtype := "f32", shape := [rows.length] })] } }

/-- The file system after the parallel build stage of the C2 scenario. -/
def c2fsS {α : Type} (a b c : List α) : FS α :=
  { srcs := [("d/a.h5".toList, c2db "a.wav".toList a),
             ("d/b.h5".toList, c2db "b.wav".toList b),
             ("d/c.h5".toList, c2db "c.wav".toList c)],
    agg := none }

/-- The info rows of the C2 scenario with the lengths 10, 20, 5 substituted. -/
def c2infosN : List SourceInfo :=
  [{ directory := "d".toList, name := "a.wav".toList,
     feats := [("f", { dtype := "f32", shape := [10] })] },
   { directory := "d".toList, name := "b.wav".toList,
     feats := [("f", { dtype := "f32", shape := [20] })] },
   { directory := "d".toList, name := "c.wav".toList,
     feats := [("f", { dtype := "f32", shape := [5] })] }]

/-- The planned definitions of the C2 scenario: one aggregate feature "f" of
total shape (35,) with segments [0,10), [10,30), [30,35). -/
def c2defsN : List (String × FeatureDef) :=
  [("f", { shape := [35], dtype := "f32",
           layout := [{ name := "d/a.h5".toList, start := 0, stop := 10 },
                      { name := "d/b.h5".toList, start := 10, stop := 30 },
                      { name := "d/c.h5".toList, start := 30, stop := 35 }] })]

/-- The aggregate store of the C2 scenario with dataset content `data`. -/
def c2agg {α : Type} (data : List (Option α)) : AggStore α :=
  { dsets := [("f", { shape := [35], dtype := "f32", data := data })],
    layouts := [("f", [("d/a.h5".toList, 0, 10), ("d/b.h5".toList, 10, 30),
                       ("d/c.h5".toList, 30, 35)])],
    infoTable := none, metaTable := none }

/-- The file system mid-scatter in the C2 scenario. -/
def c2state {α : Type} (a b c : List α) (data : List (Option α)) : FS α :=
  { srcs := (c2fsS a b c).srcs, agg := some (c2agg data) }

/-- **C2**: three sources whose feature "f" has leading sizes 10, 20 and 5 run
through the full pipeline into an aggregate "f" dataset of leading size 35 whose
persisted layout assigns [0,10), [10,30), [30,35) to the three sources in input
order, and the rows written at each range equal that source's original per-source
dataset. -/
theorem C2_end_to_end {α : Type} (a b c : List α)
    (ha : a.length = 10) (hb : b.length = 20) (hc : c.length = 5) :
    (c2run a b c).2 = none ∧
    ∃ agg : AggStore α, (c2run a b c).1.agg = some agg ∧
      getAssoc "f" agg.layouts =
        some [("d/a.h5".toList, 0, 10), ("d/b.h5".toList, 10, 30),
              ("d/c.h5".toList, 30, 35)] ∧
      ∃ ds : AggDataset α, getAssoc "f" agg.dsets = some ds ∧
        ds.shape = [35] ∧
        ds.data = (a ++ b ++ c).map some ∧
        ds.data.take 10 = a.map some ∧
        (ds.data.drop 10).take 20 = b.map some ∧
        ds.data.drop 30 = c.map some := by
  -- the parallel build stage computes definitionally
  have hrun : c2run a b c = aggregate_dbs (c2fsS a b c) c2paths false := rfl
  -- collected infos, with the lengths rewritten to numerals
  have hinfosN : collect_infos (c2fsS a b c) c2paths = .ok c2infosN := by
    have h0 : collect_infos (c2fsS a b c) c2paths = .ok
        [{ directory := "d".toList, name := "a.wav".toList,
           feats := [("f", { dtype := "f32", shape := [a.length] })] },
         { directory := "d".toList, name := "b.wav".toList,
           feats := [("f", { dtype := "f32", shape := [b.length] })] },
         { directory := "d".toList, name := "c.wav".toList,
           feats := [("f", { dtype := "f32", shape := [c.length] })] }] := rfl
    rw [h0, ha, hb, hc]
    rfl
  obtain ⟨md, hmd⟩ : ∃ md, collect_metadatas (c2fsS a b c) c2paths = .ok md :=
    ⟨_, rfl⟩
  have hdefsN : ds_definitions_from_infos c2infosN = .ok c2defsN := rfl
  -- the three scatter writes
  have hd1 : writeSeg (List.replicate 35 (none : Option α)) 0 a =
      a.map some ++ List.replicate 25 none := by
    have h := writeSeg_filled ([] : List (Option α)) a (List.replicate 25 none)
    simp only [List.nil_append, List.length_nil] at h
    rw [← h]
    congr 1
    rw [List.append_replicate_replicate, ha]
  have hd2 : writeSeg (a.map some ++ List.replicate 25 (none : Option α)) 10 b =
      a.map some ++ b.map some ++ List.replicate 5 none := by
    have h := writeSeg_filled (a.map some) b (List.replicate 5 (none : Option α))
    have hlen10 : (a.map some).length = 10 := by simp [ha]
    have hbuf : List.replicate b.length (none : Option α) ++ List.replicate 5 none =
        List.replicate 25 none := by rw [List.append_replicate_replicate, hb]
    rw [hlen10, hbuf] at h
    exact h
  have hd3 : writeSeg (a.map some ++ b.map some ++ List.replicate 5 (none : Option α))
      30 c = a.map some ++ b.map some ++ c.map some := by
    have h := writeSeg_filled (a.map some ++ b.map some) c ([] : List (Option α))
    have hlen30 : (a.map some ++ b.map some).length = 30 := by simp [ha, hb]
    have hbuf : List.replicate c.length (none : Option α) ++ [] =
        List.replicate 5 none := by rw [List.append_nil, hc]
    rw [hlen30, hbuf, List.append_nil] at h
    rw [List.append_assoc] at h
    rw [List.append_assoc]
    exact h
  have hstep1 : integrate (c2state a b c (List.replicate 35 none))
      "d/a.h5".toList "f" 0 10 =
      (c2state a b c (a.map some ++ List.replicate 25 none), none) := by
    rw [integrate_step (c2state a b c (List.replicate 35 none)) "d/a.h5".toList "f"
      0 10 a (c2db "a.wav".toList a) (c2agg (List.replicate 35 none))
      { shape := [35], dtype := "f32", data := List.replicate 35 none }
      rfl rfl rfl rfl (by rw [ha])]
    simp only [aggWrite, hd1]
    rfl
  have hstep2 : integrate (c2state a b c (a.map some ++ List.replicate 25 none))
      "d/b.h5".toList "f" 10 30 =
      (c2state a b c (a.map some ++ b.map some ++ List.replicate 5 none), none) := by
    rw [integrate_step (c2state a b c (a.map some ++ List.replicate 25 none))
      "d/b.h5".toList "f" 10 30 b (c2db "b.wav".toList b)
      (c2agg (a.map some ++ List.replicate 25 none))
      { shape := [35], dtype := "f32", data := a.map some ++ List.replicate 25 none }
      rfl rfl rfl rfl (by rw [hb])]
    simp only [aggWrite, hd2]
    rfl
  have hstep3 : integrate
      (c2state a b c (a.map some ++ b.map some ++ List.replicate 5 none))
      "d/c.h5".toList "f" 30 35 =
      (c2state a b c (a.map some ++ b.map some ++ c.map some), none) := by
    rw [integrate_step
      (c2state a b c (a.map some ++ b.map some ++ List.replicate 5 none))
      "d/c.h5".toList "f" 30 35 c (c2db "c.wav".toList c)
      (c2agg (a.map some ++ b.map some ++ List.replicate 5 none))
      { shape := [35], dtype := "f32",
        data := a.map some ++ b.map some ++ List.replicate 5 none }
      rfl rfl rfl rfl (by rw [hc])]
    simp only [aggWrite, hd3]
    rfl
  have hint : integrateAll (c2state a b c (List.replicate 35 none))
      [("d/a.h5".toList, "f", 0, 10), ("d/b.h5".toList, "f", 10, 30),
       ("d/c.h5".toList, "f", 30, 35)] =
      (c2state a b c (a.map some ++ b.map some ++ c.map some), none) := by
    simp only [integrateAll, hstep1, hstep2, hstep3]
  have hfinal : aggregate_dbs (c2fsS a b c) c2paths false =
      ({ c2state a b c (a.map some ++ b.map some ++ c.map some) with
          agg := some (aggFinish (c2agg (a.map some ++ b.map some ++ c.map some))
            c2infosN md) }, none) :=
    aggregate_dbs_ok (c2fsS a b c) c2paths c2infosN md c2defsN
      (c2state a b c (a.map some ++ b.map some ++ c.map some))
      (c2agg (a.map some ++ b.map some ++ c.map some))
      hinfosN hmd hdefsN hint rfl
  rw [hrun, hfinal]
  refine ⟨rfl, _, rfl, rfl, _, rfl, rfl, ?_, ?_, ?_, ?_⟩
  · simp [List.map_append]
  · have : a.map some ++ b.map some ++ c.map some =
        a.map some ++ (b.map some ++ c.map some) := by rw [List.append_assoc]
    rw [this]
    exact List.take_left' (by simp [ha])
  · have : a.map some ++ b.map some ++ c.map some =
        a.map some ++ (b.map some ++ c.map some) := by rw [List.append_assoc]
    rw [this, List.drop_left' (show (a.map some).length = 10 by simp [ha])]
    exact List.take_left' (by simp [hb])
  · exact List.drop_left' (by simp [ha, hb])

/-- Witness for C2 at concrete contents of lengths 10, 20 and 5. -/
theorem C2_witness :
    (c2run (List.replicate 10 1) (List.replicate 20 2)
        (List.replicate 5 (3 : Nat))).2 = none ∧
    ∃ agg : AggStore Nat,
      (c2run (List.replicate 10 1) (List.replicate 20 2)
          (List.replicate 5 3)).1.agg = some agg ∧
      getAssoc "f" agg.layouts =
        some [("d/a.h5".toList, 0, 10), ("d/b.h5".toList, 10, 30),
              ("d/c.h5".toList, 30, 35)] ∧
      ∃ ds : AggDataset Nat, getAssoc "f" agg.dsets = some ds ∧
        ds.shape = [35] ∧
        ds.data = (List.replicate 10 1 ++ List.replicate 20 2 ++
          List.replicate 5 3).map some ∧
        ds.data.take 10 = (List.replicate 10 (1 : Nat)).map some ∧
        (ds.data.drop 10).take 20 = (List.replicate 20 (2 : Nat)).map some ∧
        ds.data.drop 30 = (List.replicate 5 (3 : Nat)).map some :=
  C2_end_to_end (List.replicate 10 1) (List.replicate 20 2) (List.replicate 5 3)
    rfl rfl rfl

end Mimikit
